import Mathlib

/-!
Verification of a binary serializer/deserializer (serializer.h).

The embedding models bytes as natural numbers below 256 and machine
integers as natural numbers reduced modulo powers of two.  The host is
little-endian, so the raw in-memory layout of a w-byte unsigned value v
is its base-256 little-endian digit list; a memcpy of w bytes out of the
buffer reconstructs the value from those digits.  A C++ throw of the
runtime error "Buffer overflow!" is modelled as an Except.error carrying
the deserializer state at the moment of the throw, so that statements
about the cursor after a failed call can be expressed.  Output reference
parameters are only written after every bounds check has passed in the
source, which the Except model reflects by producing a result value only
in the success case.
-/

/-- Lowercase hexadecimal digit character for a value below 16, as produced
by a std::stringstream with std::hex set (digits 0-9 then letters a-f). -/
def hexDigit (n : Nat) : Char :=
  if n < 10 then Char.ofNat (48 + n) else Char.ofNat (87 + n)

/-- Rendering of one byte by the stream insertion inside bytes_to_hex:
std::setw(2) with std::setfill of the zero character pads a single hex
digit to two characters; a byte of two hex digits is printed as is. -/
def hexByte (b : Nat) : List Char :=
  if b < 16 then ['0', hexDigit b] else [hexDigit (b / 16), hexDigit (b % 16)]

/-- Embedding of bytes_to_hex: the loop appends the two-character rendering
of each byte of the input, in order, to an initially empty stream. -/
def bytes_to_hex (l : List Nat) : String :=
  ⟨l.flatMap hexByte⟩

/-- Little-endian base-256 byte representation of a value, w bytes wide:
the raw in-memory layout that std::memcpy and vector insert copy for an
unsigned w-byte integer on the little-endian host. -/
def toBytesLE : Nat → Nat → List Nat
  | 0, _ => []
  | w + 1, v => v % 256 :: toBytesLE w (v / 256)

/-- Value reconstructed by std::memcpy of a little-endian byte list into a
machine integer. -/
def fromBytesLE : List Nat → Nat
  | [] => 0
  | b :: bs => b + 256 * fromBytesLE bs

/-- Embedding of class serializer: the growable byte vector data.  The
capacity argument of the constructor is a pure reservation hint and does
not affect the abstract byte-sequence state, so it is not modelled. -/
structure serializer where
  data : List Nat
deriving DecidableEq

namespace serializer

/-- Embedding of the arithmetic insertion operator: append the sizeof(T)
raw bytes of the value (w = sizeof(T), v = the value's bit pattern as an
unsigned number) to the data vector. -/
def write (s : serializer) (w v : Nat) : serializer :=
  ⟨s.data ++ toBytesLE w v⟩

/-- Embedding of the std::string insertion operator: the length is the
string size cast to uint32_t (reduced modulo 2^32), written as a 4-byte
prefix, followed by that many bytes of the content (the insert call runs
from the data pointer to the data pointer plus the cast length, so an
oversized string is silently truncated). -/
def writeString (s : serializer) (value : List Nat) : serializer :=
  let length := value.length % 2 ^ 32
  let s₁ := s.write 4 length
  ⟨s₁.data ++ value.take length⟩

/-- Embedding of the std::vector insertion operator for a vector of a
fixed-width arithmetic element type of width w: the element count cast to
uint32_t is written as a 4-byte prefix, then every element of the vector
(all of them, even if the count was truncated) is written through the
arithmetic insertion operator. -/
def writeVec (s : serializer) (w : Nat) (value : List Nat) : serializer :=
  let size := value.length % 2 ^ 32
  let s₁ := s.write 4 size
  value.foldl (fun acc e => acc.write w e) s₁

/-- Embedding of clear: discard all bytes. -/
def clear (_ : serializer) : serializer :=
  ⟨[]⟩

/-- Embedding of serializer::str: hex rendering of the whole data vector. -/
def str (s : serializer) : String :=
  bytes_to_hex s.data

end serializer

/-- Embedding of class deserializer: the copied immutable buffer plus the
cursor pos, starting at 0 after construction. -/
structure deserializer where
  buffer : List Nat
  pos : Nat
deriving DecidableEq

namespace deserializer

/-- Embedding of the template extraction operator for a fixed-width type
of width w = sizeof(T): if pos + w exceeds the buffer length the call
throws (error carrying the unchanged state); otherwise memcpy the w bytes
at pos into the target and advance pos by w. -/
def read (d : deserializer) (w : Nat) : Except deserializer (Nat × deserializer) :=
  if d.pos + w > d.buffer.length then
    .error d
  else
    .ok (fromBytesLE ((d.buffer.drop d.pos).take w), ⟨d.buffer, d.pos + w⟩)

/-- Embedding of the std::string extraction operator: read a uint32_t size
through the template operator (propagating its throw); if pos + size
exceeds the buffer length, throw with pos as the size read left it;
otherwise copy size bytes into the target and advance pos by size. -/
def readString (d : deserializer) : Except deserializer (List Nat × deserializer) :=
  match d.read 4 with
  | .error d₁ => .error d₁
  | .ok (size, d₁) =>
    if d₁.pos + size > d₁.buffer.length then
      .error d₁
    else
      .ok ((d₁.buffer.drop d₁.pos).take size, ⟨d₁.buffer, d₁.pos + size⟩)

/-- Embedding of the std::vector of uint8_t extraction operator, whose body
is identical to the string overload: a 4-byte size prefix followed by size
raw bytes. -/
def readBytes (d : deserializer) : Except deserializer (List Nat × deserializer) :=
  match d.read 4 with
  | .error d₁ => .error d₁
  | .ok (size, d₁) =>
    if d₁.pos + size > d₁.buffer.length then
      .error d₁
    else
      .ok ((d₁.buffer.drop d₁.pos).take size, ⟨d₁.buffer, d₁.pos + size⟩)

/-- Embedding of get_pos. -/
def get_pos (d : deserializer) : Nat :=
  d.pos

/-- Embedding of deserializer::str: hex rendering of the whole buffer. -/
def str (d : deserializer) : String :=
  bytes_to_hex d.buffer

/-- Outcome predicate used for the cursor invariant: whether the read
succeeded or threw, the cursor did not decrease, stayed within the buffer,
and the buffer content was untouched. -/
def cursorOk (d : deserializer) (r : Except deserializer (α × deserializer)) : Prop :=
  match r with
  | .ok (_, d₁) => d.pos ≤ d₁.pos ∧ d₁.pos ≤ d.buffer.length ∧ d₁.buffer = d.buffer
  | .error d₁ => d.pos ≤ d₁.pos ∧ d₁.pos ≤ d.buffer.length ∧ d₁.buffer = d.buffer

end deserializer

section Lemmas

theorem toBytesLE_length (w v : Nat) : (toBytesLE w v).length = w := by
  induction w generalizing v with
  | zero => rfl
  | succ w ih => simp [toBytesLE, ih]

theorem toBytesLE_lt (w v : Nat) : ∀ b ∈ toBytesLE w v, b < 256 := by
  induction w generalizing v with
  | zero => simp [toBytesLE]
  | succ w ih =>
    intro b hb
    simp only [toBytesLE, List.mem_cons] at hb
    rcases hb with h | h
    · subst h; exact Nat.mod_lt _ (by norm_num)
    · exact ih _ _ h

theorem fromBytesLE_toBytesLE (w v : Nat) (h : v < 256 ^ w) :
    fromBytesLE (toBytesLE w v) = v := by
  induction w generalizing v with
  | zero =>
    simp [pow_zero, Nat.lt_one_iff] at h
    simp [toBytesLE, fromBytesLE, h]
  | succ w ih =>
    have hdiv : v / 256 < 256 ^ w := by
      rw [Nat.div_lt_iff_lt_mul (by norm_num : 0 < 256)]
      calc v < 256 ^ (w + 1) := h
        _ = 256 ^ w * 256 := by rw [pow_succ]
    simp [toBytesLE, fromBytesLE, ih _ hdiv, Nat.mod_add_div]

theorem toBytesLE_lt' (w v : Nat) (h : v < 2 ^ (8 * w)) : v < 256 ^ w := by
  calc v < 2 ^ (8 * w) := h
    _ = 256 ^ w := by rw [pow_mul]; norm_num

theorem toBytesLE_take (w v : Nat) : (toBytesLE w v).take w = toBytesLE w v :=
  List.take_of_length_le (le_of_eq (toBytesLE_length w v))

theorem foldl_write_data (w : Nat) (v : List Nat) (s : serializer) :
    (v.foldl (fun acc e => acc.write w e) s).data = s.data ++ v.flatMap (toBytesLE w) := by
  induction v generalizing s with
  | nil => simp
  | cons e v ih =>
    rw [List.foldl_cons, ih]
    simp [serializer.write, List.append_assoc]

theorem flatMap_toBytesLE_one (v : List Nat) (hv : ∀ b ∈ v, b < 256) :
    v.flatMap (toBytesLE 1) = v := by
  induction v with
  | nil => rfl
  | cons e v ih =>
    have he : e % 256 = e := Nat.mod_eq_of_lt (hv e (by simp))
    rw [List.flatMap_cons, ih fun b hb => hv b (by simp [hb])]
    simp [toBytesLE, he]

theorem flatMap_toBytesLE_length (w : Nat) (v : List Nat) :
    (v.flatMap (toBytesLE w)).length = v.length * w := by
  induction v with
  | nil => simp
  | cons e v ih => simp [ih, toBytesLE_length]; ring

theorem read_ok (d : deserializer) (w : Nat) (h : d.pos + w ≤ d.buffer.length) :
    d.read w = .ok (fromBytesLE ((d.buffer.drop d.pos).take w), ⟨d.buffer, d.pos + w⟩) := by
  simp only [deserializer.read, gt_iff_lt, Nat.not_lt.2 h, if_false]

theorem read_err (d : deserializer) (w : Nat) (h : d.buffer.length < d.pos + w) :
    d.read w = .error d := by
  simp only [deserializer.read, gt_iff_lt, h, if_true]

theorem readString_ok (d : deserializer) (h4 : d.pos + 4 ≤ d.buffer.length)
    (hsz : d.pos + 4 + fromBytesLE ((d.buffer.drop d.pos).take 4) ≤ d.buffer.length) :
    d.readString = .ok ((d.buffer.drop (d.pos + 4)).take
        (fromBytesLE ((d.buffer.drop d.pos).take 4)),
      ⟨d.buffer, d.pos + 4 + fromBytesLE ((d.buffer.drop d.pos).take 4)⟩) := by
  rw [deserializer.readString, read_ok d 4 h4]
  simp only [gt_iff_lt, Nat.not_lt.2 hsz, if_false]

theorem readString_err_payload (d : deserializer) (h4 : d.pos + 4 ≤ d.buffer.length)
    (hsz : d.buffer.length < d.pos + 4 + fromBytesLE ((d.buffer.drop d.pos).take 4)) :
    d.readString = .error ⟨d.buffer, d.pos + 4⟩ := by
  rw [deserializer.readString, read_ok d 4 h4]
  simp only [gt_iff_lt, hsz, if_true]

theorem readBytes_ok (d : deserializer) (h4 : d.pos + 4 ≤ d.buffer.length)
    (hsz : d.pos + 4 + fromBytesLE ((d.buffer.drop d.pos).take 4) ≤ d.buffer.length) :
    d.readBytes = .ok ((d.buffer.drop (d.pos + 4)).take
        (fromBytesLE ((d.buffer.drop d.pos).take 4)),
      ⟨d.buffer, d.pos + 4 + fromBytesLE ((d.buffer.drop d.pos).take 4)⟩) := by
  rw [deserializer.readBytes, read_ok d 4 h4]
  simp only [gt_iff_lt, Nat.not_lt.2 hsz, if_false]

theorem readBytes_err_payload (d : deserializer) (h4 : d.pos + 4 ≤ d.buffer.length)
    (hsz : d.buffer.length < d.pos + 4 + fromBytesLE ((d.buffer.drop d.pos).take 4)) :
    d.readBytes = .error ⟨d.buffer, d.pos + 4⟩ := by
  rw [deserializer.readBytes, read_ok d 4 h4]
  simp only [gt_iff_lt, hsz, if_true]

theorem readString_err_header (d : deserializer) (h : d.buffer.length < d.pos + 4) :
    d.readString = .error d := by
  rw [deserializer.readString, read_err d 4 h]

theorem readBytes_err_header (d : deserializer) (h : d.buffer.length < d.pos + 4) :
    d.readBytes = .error d := by
  rw [deserializer.readBytes, read_err d 4 h]

end Lemmas

/-- C2: encoding a fixed-width value v of width w = sizeof(T) (any bit
pattern v below 2 raised to 8w) into a fresh serializer and reading a
fixed-width value of the same width from a deserializer over that buffer
returns exactly v with the cursor advanced to w. -/
theorem roundtrip_fixed (w v : Nat) (h : v < 2 ^ (8 * w)) :
    deserializer.read ⟨(serializer.write ⟨[]⟩ w v).data, 0⟩ w
      = .ok (v, ⟨(serializer.write ⟨[]⟩ w v).data, w⟩) := by
  have h' := toBytesLE_lt' w v h
  simp [serializer.write, deserializer.read, toBytesLE_length, toBytesLE_take,
    fromBytesLE_toBytesLE _ _ h']

/-- Witness for C2 at the 32-bit value 42. -/
theorem roundtrip_fixed_witness :
    (42 : Nat) < 2 ^ (8 * 4) ∧
      deserializer.read ⟨(serializer.write ⟨[]⟩ 4 42).data, 0⟩ 4
        = .ok (42, ⟨(serializer.write ⟨[]⟩ 4 42).data, 4⟩) :=
  ⟨by norm_num, roundtrip_fixed 4 42 (by norm_num)⟩

/-- C3: encoding a string s of byte length below 2^32 into a fresh
serializer and reading a string from a deserializer over that buffer
returns exactly s, with the cursor at 4 + length s. -/
theorem roundtrip_string (s : List Nat) (h : s.length < 2 ^ 32) :
    deserializer.readString ⟨(serializer.writeString ⟨[]⟩ s).data, 0⟩
      = .ok (s, ⟨(serializer.writeString ⟨[]⟩ s).data, 4 + s.length⟩) := by
  have hmod : s.length % 2 ^ 32 = s.length := Nat.mod_eq_of_lt h
  have hlt : s.length < 256 ^ 4 := by
    calc s.length < 2 ^ 32 := h
      _ ≤ 256 ^ 4 := by norm_num
  have hp4 : (toBytesLE 4 s.length).length = 4 := toBytesLE_length 4 s.length
  have hbuf : (serializer.writeString ⟨[]⟩ s).data = toBytesLE 4 s.length ++ s := by
    simp only [serializer.writeString, serializer.write, hmod, List.take_length,
      List.nil_append]
  have hlen : (toBytesLE 4 s.length ++ s).length = 4 + s.length := by
    simp [hp4]
  have htake : ((toBytesLE 4 s.length ++ s).drop 0).take 4 = toBytesLE 4 s.length := by
    rw [List.drop_zero]; exact List.take_left' hp4
  have hfrom : fromBytesLE (toBytesLE 4 s.length) = s.length :=
    fromBytesLE_toBytesLE _ _ hlt
  have hdrop : (toBytesLE 4 s.length ++ s).drop (0 + 4) = s := by
    rw [Nat.zero_add]; exact List.drop_left' hp4
  rw [hbuf]
  rw [readString_ok ⟨toBytesLE 4 s.length ++ s, 0⟩
      (by show 0 + 4 ≤ (toBytesLE 4 s.length ++ s).length; rw [hlen]; omega)
      (by show 0 + 4 + fromBytesLE (((toBytesLE 4 s.length ++ s).drop 0).take 4)
            ≤ (toBytesLE 4 s.length ++ s).length
          rw [htake, hfrom, hlen])]
  show Except.ok (((toBytesLE 4 s.length ++ s).drop (0 + 4)).take
      (fromBytesLE (((toBytesLE 4 s.length ++ s).drop 0).take 4)),
    (⟨toBytesLE 4 s.length ++ s, 0 + 4 + fromBytesLE
        (((toBytesLE 4 s.length ++ s).drop 0).take 4)⟩ : deserializer)) = _
  rw [htake, hfrom, hdrop, List.take_length]

/-- C4 (amended): encoding a vector of bytes (the element type for which
the deserializer provides a sequence read) of count below 2^32 into a
fresh serializer and reading a byte vector from a deserializer over that
buffer returns exactly the same ordered sequence, including the empty
one.  For a count of 2^32 or more the uint32_t cast truncates the count
prefix and decoding returns only the first count mod 2^32 elements. -/
theorem roundtrip_bytes (v : List Nat) (hv : ∀ b ∈ v, b < 256) (h : v.length < 2 ^ 32) :
    deserializer.readBytes ⟨(serializer.writeVec ⟨[]⟩ 1 v).data, 0⟩
      = .ok (v, ⟨(serializer.writeVec ⟨[]⟩ 1 v).data, 4 + v.length⟩) := by
  have hmod : v.length % 2 ^ 32 = v.length := Nat.mod_eq_of_lt h
  have hlt : v.length < 256 ^ 4 := by
    calc v.length < 2 ^ 32 := h
      _ ≤ 256 ^ 4 := by norm_num
  have hp4 : (toBytesLE 4 v.length).length = 4 := toBytesLE_length 4 v.length
  have hbuf : (serializer.writeVec ⟨[]⟩ 1 v).data = toBytesLE 4 v.length ++ v := by
    rw [serializer.writeVec, foldl_write_data, flatMap_toBytesLE_one v hv]
    simp only [serializer.write, hmod, List.nil_append]
  have hlen : (toBytesLE 4 v.length ++ v).length = 4 + v.length := by
    simp [hp4]
  have htake : ((toBytesLE 4 v.length ++ v).drop 0).take 4 = toBytesLE 4 v.length := by
    rw [List.drop_zero]; exact List.take_left' hp4
  have hfrom : fromBytesLE (toBytesLE 4 v.length) = v.length :=
    fromBytesLE_toBytesLE _ _ hlt
  have hdrop : (toBytesLE 4 v.length ++ v).drop (0 + 4) = v := by
    rw [Nat.zero_add]; exact List.drop_left' hp4
  rw [hbuf]
  rw [readBytes_ok ⟨toBytesLE 4 v.length ++ v, 0⟩
      (by show 0 + 4 ≤ (toBytesLE 4 v.length ++ v).length; rw [hlen]; omega)
      (by show 0 + 4 + fromBytesLE (((toBytesLE 4 v.length ++ v).drop 0).take 4)
            ≤ (toBytesLE 4 v.length ++ v).length
          rw [htake, hfrom, hlen])]
  rw [htake, hfrom, hdrop, List.take_length]

/-- Witness for C4 at the empty byte vector (count 0). -/
theorem roundtrip_bytes_witness :
    ((∀ b ∈ ([] : List Nat), b < 256) ∧ ([] : List Nat).length < 2 ^ 32) ∧
      deserializer.readBytes ⟨(serializer.writeVec ⟨[]⟩ 1 []).data, 0⟩
        = .ok ([], ⟨(serializer.writeVec ⟨[]⟩ 1 []).data, 4 + 0⟩) :=
  ⟨⟨by simp, by norm_num⟩, roundtrip_bytes [] (by simp) (by norm_num)⟩

/-- Decoding after encoding a byte vector of arbitrary count: the decoder
returns the first count mod 2^32 bytes, the portion the truncated count
prefix declares. -/
theorem readBytes_after_writeVec (v : List Nat) (hv : ∀ b ∈ v, b < 256) :
    deserializer.readBytes ⟨(serializer.writeVec ⟨[]⟩ 1 v).data, 0⟩
      = .ok (v.take (v.length % 2 ^ 32),
        ⟨(serializer.writeVec ⟨[]⟩ 1 v).data, 4 + v.length % 2 ^ 32⟩) := by
  have hL32 : v.length % 2 ^ 32 < 2 ^ 32 := Nat.mod_lt _ (by norm_num)
  have hLle : v.length % 2 ^ 32 ≤ v.length := Nat.mod_le _ _
  have hlt : v.length % 2 ^ 32 < 256 ^ 4 := lt_of_lt_of_le hL32 (by norm_num)
  have hp4 : (toBytesLE 4 (v.length % 2 ^ 32)).length = 4 := toBytesLE_length _ _
  have hbuf : (serializer.writeVec ⟨[]⟩ 1 v).data
      = toBytesLE 4 (v.length % 2 ^ 32) ++ v := by
    rw [serializer.writeVec, foldl_write_data, flatMap_toBytesLE_one v hv]
    simp only [serializer.write, List.nil_append]
  have hlen : (toBytesLE 4 (v.length % 2 ^ 32) ++ v).length = 4 + v.length := by
    rw [List.length_append, hp4]
  have htake : ((toBytesLE 4 (v.length % 2 ^ 32) ++ v).drop 0).take 4
      = toBytesLE 4 (v.length % 2 ^ 32) := by
    rw [List.drop_zero]; exact List.take_left' hp4
  have hfrom : fromBytesLE (toBytesLE 4 (v.length % 2 ^ 32)) = v.length % 2 ^ 32 :=
    fromBytesLE_toBytesLE _ _ hlt
  have hdrop : (toBytesLE 4 (v.length % 2 ^ 32) ++ v).drop (0 + 4) = v := by
    rw [Nat.zero_add]; exact List.drop_left' hp4
  rw [hbuf]
  rw [readBytes_ok ⟨toBytesLE 4 (v.length % 2 ^ 32) ++ v, 0⟩
      (by show 0 + 4 ≤ (toBytesLE 4 (v.length % 2 ^ 32) ++ v).length
          rw [hlen]; omega)
      (by show 0 + 4 + fromBytesLE
            (((toBytesLE 4 (v.length % 2 ^ 32) ++ v).drop 0).take 4)
            ≤ (toBytesLE 4 (v.length % 2 ^ 32) ++ v).length
          rw [htake, hfrom, hlen]; omega)]
  rw [htake, hfrom, hdrop]

/-- C4 counterexample: a byte vector of count exactly 2^32 encodes with a
count prefix truncated to 0 by the uint32_t cast (all 2^32 element bytes
are still appended after it), so decoding the buffer returns the empty
sequence, not an equal ordered sequence. -/
theorem roundtrip_bytes_cex :
    deserializer.readBytes
        ⟨(serializer.writeVec ⟨[]⟩ 1 (List.replicate (2 ^ 32) 0)).data, 0⟩
      = .ok ([], ⟨(serializer.writeVec ⟨[]⟩ 1 (List.replicate (2 ^ 32) 0)).data, 4⟩) ∧
      ([] : List Nat) ≠ List.replicate (2 ^ 32) 0 := by
  have hv : ∀ b ∈ List.replicate (2 ^ 32) (0 : Nat), b < 256 := by
    intro b hb
    rw [List.eq_of_mem_replicate hb]
    norm_num
  have hm : (List.replicate (2 ^ 32) (0 : Nat)).length % 2 ^ 32 = 0 := by
    rw [List.length_replicate]
    exact Nat.mod_self _
  refine ⟨?_, ?_⟩
  · have h := readBytes_after_writeVec (List.replicate (2 ^ 32) 0) hv
    rw [hm, List.take_zero, Nat.add_zero] at h
    exact h
  · intro h
    have hl := congrArg List.length h
    rw [List.length_nil, List.length_replicate] at hl
    exact absurd hl.symm (by norm_num)

/-- C6 (amended): a fixed-width write of width w grows the buffer by
exactly w bytes, a string write of byte length L below 2^32 grows it by
exactly 4 + L bytes (for L at or above 2^32 the code truncates the copied
content to L mod 2^32), a vector write of N fixed-width elements of width
w grows it by exactly 4 + N times w bytes, and in every case the
previously written bytes are left unchanged. -/
theorem length_accounting :
    (∀ (s : serializer) (w v : Nat),
      (s.write w v).data.length = s.data.length + w ∧
      (s.write w v).data.take s.data.length = s.data) ∧
    (∀ (s : serializer) (value : List Nat), value.length < 2 ^ 32 →
      (s.writeString value).data.length = s.data.length + (4 + value.length) ∧
      (s.writeString value).data.take s.data.length = s.data) ∧
    (∀ (s : serializer) (w : Nat) (value : List Nat),
      (s.writeVec w value).data.length = s.data.length + (4 + value.length * w) ∧
      (s.writeVec w value).data.take s.data.length = s.data) := by
  refine ⟨fun s w v => ⟨?_, ?_⟩, fun s value h => ⟨?_, ?_⟩, fun s w value => ⟨?_, ?_⟩⟩
  · simp [serializer.write, toBytesLE_length]
  · simp [serializer.write, List.take_left]
  · have hmod : value.length % 2 ^ 32 = value.length := Nat.mod_eq_of_lt h
    simp only [serializer.writeString, serializer.write, hmod, List.take_length]
    simp [toBytesLE_length]
  · have hmod : value.length % 2 ^ 32 = value.length := Nat.mod_eq_of_lt h
    simp only [serializer.writeString, serializer.write, hmod, List.take_length]
    rw [List.append_assoc]
    exact List.take_left _ _
  · rw [serializer.writeVec, foldl_write_data]
    simp only [serializer.write, List.length_append, toBytesLE_length,
      flatMap_toBytesLE_length]
    omega
  · rw [serializer.writeVec, foldl_write_data]
    simp only [serializer.write]
    rw [List.append_assoc]
    exact List.take_left _ _

/-- Witness for C6: a one-byte string written after one prior byte. -/
theorem length_accounting_witness :
    ([9] : List Nat).length < 2 ^ 32 ∧
      ((serializer.mk [7]).writeString [9]).data.length
        = (serializer.mk [7]).data.length + (4 + ([9] : List Nat).length) :=
  ⟨by norm_num, (length_accounting.2.1 ⟨[7]⟩ [9] (by norm_num)).1⟩

/-- C6 counterexample: a string of byte length exactly 2^32 grows the
buffer by only 4 bytes (the uint32_t cast truncates the written length to
0), not by 4 + 2^32 bytes as the claim states for every length L. -/
theorem length_accounting_cex :
    ¬ ((serializer.writeString ⟨[]⟩ (List.replicate (2 ^ 32) 0)).data.length
        = ([] : List Nat).length + (4 + (List.replicate (2 ^ 32) (0 : Nat)).length)) := by
  have h1 : (List.replicate (2 ^ 32) (0 : Nat)).length = 2 ^ 32 :=
    List.length_replicate _ _
  have h2 : (serializer.writeString ⟨[]⟩ (List.replicate (2 ^ 32) (0 : Nat))).data.length
      = 4 := by
    simp only [serializer.writeString, serializer.write, h1, Nat.mod_self,
      List.take_zero, List.append_nil, List.nil_append, toBytesLE_length]
  rw [h2, h1]
  norm_num

/-- Witness for C3 at the two-byte string "hi". -/
theorem roundtrip_string_witness :
    ([104, 105] : List Nat).length < 2 ^ 32 ∧
      deserializer.readString ⟨(serializer.writeString ⟨[]⟩ [104, 105]).data, 0⟩
        = .ok ([104, 105], ⟨(serializer.writeString ⟨[]⟩ [104, 105]).data, 4 + 2⟩) :=
  ⟨by norm_num, roundtrip_string [104, 105] (by norm_num)⟩

/-- C1 (amended): when the 4-byte length prefix of a string or byte-vector
read is successfully read but the declared length exceeds the bytes
remaining after it, the read fails with BufferOverflow, the buffer content
is unchanged, no output value is produced, and the cursor ends exactly 4
bytes past its pre-call value: the prefix sub-read has already advanced it
and the failing call does not roll it back. -/
theorem overflow_cursor_after_sizeread (d : deserializer)
    (h4 : d.pos + 4 ≤ d.buffer.length)
    (hov : d.buffer.length < d.pos + 4 + fromBytesLE ((d.buffer.drop d.pos).take 4)) :
    d.readString = .error ⟨d.buffer, d.pos + 4⟩ ∧
    d.readBytes = .error ⟨d.buffer, d.pos + 4⟩ :=
  ⟨readString_err_payload d h4 hov, readBytes_err_payload d h4 hov⟩

/-- Witness for C1 (amended) on the buffer 05 00 00 00: the declared
length 5 exceeds the zero remaining bytes. -/
theorem overflow_cursor_after_sizeread_witness :
    ((deserializer.mk [5, 0, 0, 0] 0).pos + 4
        ≤ (deserializer.mk [5, 0, 0, 0] 0).buffer.length ∧
      (deserializer.mk [5, 0, 0, 0] 0).buffer.length
        < (deserializer.mk [5, 0, 0, 0] 0).pos + 4 +
          fromBytesLE (((deserializer.mk [5, 0, 0, 0] 0).buffer.drop
            (deserializer.mk [5, 0, 0, 0] 0).pos).take 4)) ∧
      (deserializer.mk [5, 0, 0, 0] 0).readString
        = .error ⟨[5, 0, 0, 0], (deserializer.mk [5, 0, 0, 0] 0).pos + 4⟩ :=
  ⟨⟨by decide, by decide⟩,
    (overflow_cursor_after_sizeread ⟨[5, 0, 0, 0], 0⟩ (by decide) (by decide)).1⟩

/-- C1 counterexample: on the buffer 05 00 00 00 (declared length 5, zero
remaining bytes) the string read throws with the cursor at 4, not at its
pre-call value 0, refuting the clause that the cursor is unchanged from
before the call. -/
theorem overflow_cursor_cex :
    deserializer.readString ⟨[5, 0, 0, 0], 0⟩ = .error ⟨[5, 0, 0, 0], 4⟩ ∧
      (4 : Nat) ≠ 0 :=
  ⟨rfl, by norm_num⟩

/-- C5: a fixed-width read of width w from a fresh decoder over a buffer
shorter than w throws BufferOverflow with nothing consumed; and when a
readable 4-byte length prefix declares more bytes than remain after it,
the prefix sub-read itself succeeds while the string and byte-vector reads
throw BufferOverflow. -/
theorem truncation_detection :
    (∀ (w : Nat) (buf : List Nat), buf.length < w →
      deserializer.read ⟨buf, 0⟩ w = .error ⟨buf, 0⟩) ∧
    (∀ d : deserializer, d.pos + 4 ≤ d.buffer.length →
      d.buffer.length < d.pos + 4 + fromBytesLE ((d.buffer.drop d.pos).take 4) →
      d.read 4 = .ok (fromBytesLE ((d.buffer.drop d.pos).take 4), ⟨d.buffer, d.pos + 4⟩) ∧
      d.readString = .error ⟨d.buffer, d.pos + 4⟩ ∧
      d.readBytes = .error ⟨d.buffer, d.pos + 4⟩) := by
  refine ⟨fun w buf h => read_err _ _ ?_, fun d h4 hov =>
    ⟨read_ok d 4 h4, readString_err_payload d h4 hov, readBytes_err_payload d h4 hov⟩⟩
  show buf.length < 0 + w
  omega

/-- Witness for C5: a 4-byte read from a 2-byte buffer, and the buffer
05 00 00 00 whose declared length 5 exceeds the zero remaining bytes. -/
theorem truncation_detection_witness :
    (([1, 2] : List Nat).length < 4 ∧
      deserializer.read ⟨[1, 2], 0⟩ 4 = .error ⟨[1, 2], 0⟩) ∧
    (deserializer.mk [5, 0, 0, 0] 0).readBytes
      = .error ⟨[5, 0, 0, 0], (deserializer.mk [5, 0, 0, 0] 0).pos + 4⟩ :=
  ⟨⟨by norm_num, truncation_detection.1 4 [1, 2] (by norm_num)⟩,
    (truncation_detection.2 ⟨[5, 0, 0, 0], 0⟩ (by decide) (by decide)).2.2⟩

/-- C7: from any decoder state satisfying the cursor invariant (cursor at
most the buffer length), every fixed-width, string, or byte-vector read,
whether it succeeds or throws, leaves the buffer unchanged and a cursor
that has not decreased and still lies within the buffer. -/
theorem cursor_invariant (d : deserializer) (hd : d.pos ≤ d.buffer.length) :
    (∀ w, d.cursorOk (d.read w)) ∧ d.cursorOk d.readString ∧ d.cursorOk d.readBytes := by
  have hread : ∀ w, d.cursorOk (d.read w) := by
    intro w
    rw [deserializer.read]
    split
    · exact ⟨le_refl _, hd, rfl⟩
    · next h =>
        exact ⟨by show d.pos ≤ d.pos + w; omega,
          by show d.pos + w ≤ d.buffer.length; omega, rfl⟩
  refine ⟨hread, ?_, ?_⟩
  · by_cases h4 : d.buffer.length < d.pos + 4
    · rw [readString_err_header d h4]
      exact ⟨le_refl _, hd, rfl⟩
    · have h4' : d.pos + 4 ≤ d.buffer.length := Nat.not_lt.1 h4
      by_cases hov : d.buffer.length < d.pos + 4 + fromBytesLE ((d.buffer.drop d.pos).take 4)
      · rw [readString_err_payload d h4' hov]
        exact ⟨by show d.pos ≤ d.pos + 4; omega, h4', rfl⟩
      · rw [readString_ok d h4' (Nat.not_lt.1 hov)]
        exact ⟨by show d.pos ≤ d.pos + 4 + fromBytesLE ((d.buffer.drop d.pos).take 4); omega,
          Nat.not_lt.1 hov, rfl⟩
  · by_cases h4 : d.buffer.length < d.pos + 4
    · rw [readBytes_err_header d h4]
      exact ⟨le_refl _, hd, rfl⟩
    · have h4' : d.pos + 4 ≤ d.buffer.length := Nat.not_lt.1 h4
      by_cases hov : d.buffer.length < d.pos + 4 + fromBytesLE ((d.buffer.drop d.pos).take 4)
      · rw [readBytes_err_payload d h4' hov]
        exact ⟨by show d.pos ≤ d.pos + 4; omega, h4', rfl⟩
      · rw [readBytes_ok d h4' (Nat.not_lt.1 hov)]
        exact ⟨by show d.pos ≤ d.pos + 4 + fromBytesLE ((d.buffer.drop d.pos).take 4); omega,
          Nat.not_lt.1 hov, rfl⟩

/-- Witness for C7 on a fresh 2-byte decoder and a 4-byte read (which
throws). -/
theorem cursor_invariant_witness :
    (deserializer.mk [1, 2] 0).pos ≤ (deserializer.mk [1, 2] 0).buffer.length ∧
      (deserializer.mk [1, 2] 0).cursorOk ((deserializer.mk [1, 2] 0).read 4) :=
  ⟨by decide, (cursor_invariant ⟨[1, 2], 0⟩ (by decide)).1 4⟩

/-- C10: when at least 4 bytes remain and the 4-byte prefix decodes to the
length 0, both the string read and the byte-vector read succeed (even when
the cursor then sits exactly at the buffer end), return the empty
string/vector, and advance the cursor by exactly 4. -/
theorem zero_length_read (d : deserializer) (h4 : d.pos + 4 ≤ d.buffer.length)
    (h0 : fromBytesLE ((d.buffer.drop d.pos).take 4) = 0) :
    d.readString = .ok ([], ⟨d.buffer, d.pos + 4⟩) ∧
    d.readBytes = .ok ([], ⟨d.buffer, d.pos + 4⟩) := by
  have hsz : d.pos + 4 + fromBytesLE ((d.buffer.drop d.pos).take 4) ≤ d.buffer.length := by
    rw [h0]; omega
  constructor
  · rw [readString_ok d h4 hsz, h0]
    simp
  · rw [readBytes_ok d h4 hsz, h0]
    simp

/-- Witness for C10 on the buffer 00 00 00 00: the prefix decodes to 0 and
the cursor ends exactly at the buffer end. -/
theorem zero_length_read_witness :
    ((deserializer.mk [0, 0, 0, 0] 0).pos + 4
        ≤ (deserializer.mk [0, 0, 0, 0] 0).buffer.length ∧
      fromBytesLE (((deserializer.mk [0, 0, 0, 0] 0).buffer.drop
        (deserializer.mk [0, 0, 0, 0] 0).pos).take 4) = 0) ∧
      (deserializer.mk [0, 0, 0, 0] 0).readString
        = .ok ([], ⟨[0, 0, 0, 0], (deserializer.mk [0, 0, 0, 0] 0).pos + 4⟩) :=
  ⟨⟨by decide, by decide⟩, (zero_length_read ⟨[0, 0, 0, 0], 0⟩ (by decide) (by decide)).1⟩

theorem hexDigit_mem (n : Nat) (h : n < 16) :
    hexDigit n ∈ ("0123456789abcdef").data := by
  interval_cases n <;> decide

theorem hexByte_length (b : Nat) : (hexByte b).length = 2 := by
  unfold hexByte
  split <;> rfl

theorem hexByte_mem (b : Nat) (h : b < 256) :
    ∀ c ∈ hexByte b, c ∈ ("0123456789abcdef").data := by
  intro c hc
  unfold hexByte at hc
  split at hc
  · next h16 =>
      simp only [List.mem_cons, List.not_mem_nil, or_false] at hc
      rcases hc with h0 | hd
      · rw [h0]; decide
      · rw [hd]; exact hexDigit_mem _ h16
  · next h16 =>
      simp only [List.mem_cons, List.not_mem_nil, or_false] at hc
      rcases hc with h0 | hd
      · rw [h0]; exact hexDigit_mem _ (by omega)
      · rw [hd]; exact hexDigit_mem _ (Nat.mod_lt _ (by norm_num))

theorem flatMap_hexByte_length (l : List Nat) :
    (l.flatMap hexByte).length = 2 * l.length := by
  induction l with
  | nil => rfl
  | cons b l ih => simp [hexByte_length, ih]; ring

/-- C8: the hex renderer emits exactly two characters per byte, every
emitted character is a lowercase hexadecimal digit, a byte below 16 is
left-padded with a zero character, and the bytes 00 2A FF render as the
string "002aff". -/
theorem hex_rendering :
    (∀ l : List Nat, (∀ b ∈ l, b < 256) →
      (bytes_to_hex l).data.length = 2 * l.length ∧
      ∀ c ∈ (bytes_to_hex l).data, c ∈ ("0123456789abcdef").data) ∧
    (∀ b : Nat, b < 16 → hexByte b = ['0', hexDigit b]) ∧
    bytes_to_hex [0, 42, 255] = "002aff" := by
  refine ⟨fun l hl => ⟨flatMap_hexByte_length l, fun c hc => ?_⟩,
    fun b hb => by unfold hexByte; rw [if_pos hb], by decide⟩
  rw [bytes_to_hex] at hc
  rcases List.mem_flatMap.1 hc with ⟨b, hb, hcb⟩
  exact hexByte_mem b (hl b hb) c hcb

/-- Witness for C8 on the single byte 5 (rendered as the padded pair
"05"). -/
theorem hex_rendering_witness :
    ((∀ b ∈ ([5] : List Nat), b < 256) ∧
      (bytes_to_hex [5]).data.length = 2 * ([5] : List Nat).length) ∧
    ((5 : Nat) < 16 ∧ hexByte 5 = ['0', hexDigit 5]) :=
  ⟨⟨by decide, (hex_rendering.1 [5] (by decide)).1⟩,
    ⟨by norm_num, hex_rendering.2.1 5 (by norm_num)⟩⟩

/-- C9: encoding the 32-bit value 42 then the string "hi" (bytes 104 105)
yields the exact 10-byte buffer 2A 00 00 00 02 00 00 00 68 69; reading a
32-bit value and then a string from it reproduces 42 and "hi" with the
cursor at 10; and any further fixed-width read of nonzero width, string
read, or byte-vector read from the exhausted buffer throws
BufferOverflow. -/
theorem concrete_scenario :
    (((serializer.mk []).write 4 42).writeString [104, 105]).data
        = [42, 0, 0, 0, 2, 0, 0, 0, 104, 105] ∧
    (((serializer.mk []).write 4 42).writeString [104, 105]).data.length = 10 ∧
    deserializer.read ⟨[42, 0, 0, 0, 2, 0, 0, 0, 104, 105], 0⟩ 4
      = .ok (42, ⟨[42, 0, 0, 0, 2, 0, 0, 0, 104, 105], 4⟩) ∧
    deserializer.readString ⟨[42, 0, 0, 0, 2, 0, 0, 0, 104, 105], 4⟩
      = .ok ([104, 105], ⟨[42, 0, 0, 0, 2, 0, 0, 0, 104, 105], 10⟩) ∧
    (∀ w, 0 < w → deserializer.read ⟨[42, 0, 0, 0, 2, 0, 0, 0, 104, 105], 10⟩ w
      = .error ⟨[42, 0, 0, 0, 2, 0, 0, 0, 104, 105], 10⟩) ∧
    deserializer.readString ⟨[42, 0, 0, 0, 2, 0, 0, 0, 104, 105], 10⟩
      = .error ⟨[42, 0, 0, 0, 2, 0, 0, 0, 104, 105], 10⟩ ∧
    deserializer.readBytes ⟨[42, 0, 0, 0, 2, 0, 0, 0, 104, 105], 10⟩
      = .error ⟨[42, 0, 0, 0, 2, 0, 0, 0, 104, 105], 10⟩ := by
  refine ⟨rfl, rfl, rfl, rfl, fun w hw => read_err _ _ ?_, rfl, rfl⟩
  show 10 < 10 + w
  omega

/-- Witness for C9: the third read instantiated at width 4. -/
theorem concrete_scenario_witness :
    (0 : Nat) < 4 ∧
      deserializer.read ⟨[42, 0, 0, 0, 2, 0, 0, 0, 104, 105], 10⟩ 4
        = .error ⟨[42, 0, 0, 0, 2, 0, 0, 0, 104, 105], 10⟩ :=
  ⟨by norm_num, concrete_scenario.2.2.2.2.1 4 (by norm_num)⟩
